import Mathlib

/-!
Verification of the HELOC calculator's amortization engine
(`src/heloc_streamlit_app.py`).

The numeric code is embedded over `ℚ` (exact arithmetic): Python floats
become rationals, so every identity proved here is the exact-arithmetic
content of the source formulas.  The `date` column of the schedule is
presentation-only (it never feeds back into the math) and is omitted.
-/

namespace Heloc

/-- One row of the amortization table built by `amortize_schedule`
(columns `month, payment, principal, interest, balance`; the `date`
column is presentation-only and omitted). -/
structure Row where
  month : ℕ
  payment : ℚ
  principal : ℚ
  interest : ℚ
  balance : ℚ
  deriving DecidableEq, Repr

/-- The quadruple returned by `amortize_schedule`:
`(monthly_payment, total_paid, total_interest, schedule_df)`. -/
structure AmortResult where
  monthly : ℚ
  total_paid : ℚ
  total_interest : ℚ
  schedule : List Row
  deriving DecidableEq, Repr

/-- Python `int()` applied to a rational: truncation toward zero. -/
def pyInt (q : ℚ) : ℤ :=
  if 0 ≤ q then ⌊q⌋ else ⌈q⌉

/-- The `apr == 0` loop of `amortize_schedule` (source lines 24-30):
each period pays `monthly` of principal and no interest; the emitted
balance is `max(balance, 0.0)` after the update.  Arguments: remaining
iteration count, current month index `i`, running `balance`. -/
def amortRowsZero (monthly : ℚ) : ℕ → ℕ → ℚ → List Row
  | 0, _, _ => []
  | rem + 1, i, balance =>
    let principal_paid := monthly
    let interest_paid : ℚ := 0
    let balance2 := balance - principal_paid
    ⟨i, monthly, principal_paid, interest_paid, max balance2 0⟩ ::
      amortRowsZero monthly rem (i + 1) balance2

/-- The positive-rate loop of `amortize_schedule` (source lines 39-45):
`interest_paid = balance * r`, `principal_paid = monthly - interest_paid`,
`balance -= principal_paid`, emitted balance is `max(balance, 0.0)`. -/
def amortRowsPos (monthly r : ℚ) : ℕ → ℕ → ℚ → List Row
  | 0, _, _ => []
  | rem + 1, i, balance =>
    let interest_paid := balance * r
    let principal_paid := monthly - interest_paid
    let balance2 := balance - principal_paid
    ⟨i, monthly, principal_paid, interest_paid, max balance2 0⟩ ::
      amortRowsPos monthly r rem (i + 1) balance2

/-- `amortize_schedule(principal, apr, years)` from
`src/heloc_streamlit_app.py` lines 13-47.  `n = int(years * 12)`; when
`n <= 0 or principal <= 0` it returns zeros and an empty schedule;
when `apr == 0` it uses the straight-line branch, otherwise the
fixed-payment annuity formula
`monthly = principal * (r * factor) / (factor - 1)` with
`r = apr / 12`, `factor = (1 + r) ** n`. -/
def amortize_schedule (principal apr years : ℚ) : AmortResult :=
  let n : ℤ := pyInt (years * 12)
  if n ≤ 0 ∨ principal ≤ 0 then
    ⟨0, 0, 0, []⟩
  else
    let m : ℕ := n.toNat
    if apr = 0 then
      let monthly := principal / (m : ℚ)
      let total_paid := monthly * (m : ℚ)
      let total_interest := total_paid - principal
      ⟨monthly, total_paid, total_interest, amortRowsZero monthly m 1 principal⟩
    else
      let r := apr / 12
      let factor := (1 + r) ^ m
      let monthly := principal * (r * factor) / (factor - 1)
      let total_paid := monthly * (m : ℚ)
      let total_interest := total_paid - principal
      ⟨monthly, total_paid, total_interest, amortRowsPos monthly r m 1 principal⟩

/-- The loan-to-value computation of the app (source lines 94-95):
`LTV = (Estimated_loan / Home_value) if Home_value else 0.0` with
`Estimated_loan = Borrowed + Existing_loan`.  Python truthiness of a
float is "nonzero". -/
def LTV (borrowed existing_loan home_value : ℚ) : ℚ :=
  if home_value ≠ 0 then (borrowed + existing_loan) / home_value else 0

/-- The error taxonomy of spec §7: `InvalidInput` is the only failure
class of the core. -/
inductive CalcError where
  | InvalidInput
  deriving DecidableEq, Repr

/-- Modelled from the spec: the strict payment-calculator entry point
`compute_payment` of §4.1, whose implementation is not under `src/`
(the repository slice there holds only the simplified
`amortize_schedule`).  Following the spec's words: fail with
`InvalidInput` if `principal ≤ 0` or the rate is outside `[0,100)` or
`term ≤ 0`, or if `n = round(term_years * payments_per_year) ≤ 0`;
otherwise the interest-only, zero-rate, or annuity formula with
`i = annual_rate_pct/100/payments_per_year`. -/
def compute_payment (principal annual_rate_pct term_years : ℚ)
    (payments_per_year : ℕ := 12) (interest_only : Bool := false) :
    Except CalcError ℚ :=
  if principal ≤ 0 ∨ annual_rate_pct < 0 ∨ 100 ≤ annual_rate_pct ∨ term_years ≤ 0 then
    .error .InvalidInput
  else
    let n : ℤ := round (term_years * (payments_per_year : ℚ))
    if n ≤ 0 then .error .InvalidInput
    else
      let i := annual_rate_pct / 100 / (payments_per_year : ℚ)
      if interest_only then .ok (principal * i)
      else if annual_rate_pct = 0 then .ok (principal / (n : ℚ))
      else .ok (principal * i * (1 + i) ^ n.toNat / ((1 + i) ^ n.toNat - 1))

/-- Round to 2 decimal places (spec §4.2 step 6). -/
def round2 (q : ℚ) : ℚ := ((round (q * 100) : ℤ) : ℚ) / 100

/-- One row of the spec's schedule generator (§3 "Period"): columns
`period, draw, payment, principal, interest, balance` (the date column
is presentation-only and omitted). -/
structure SRow where
  period : ℕ
  draw : ℚ
  payment : ℚ
  principal : ℚ
  interest : ℚ
  balance : ℚ
  deriving DecidableEq, Repr

/-- Draw amount for a (1-based) period: the sum of all draw events whose
0-based `period_index` equals `period - 1` (spec §4.2 step 1). -/
def drawAt (draws : List (ℕ × ℚ)) (period : ℕ) : ℚ :=
  ((draws.filter (fun d => d.1 + 1 = period)).map Prod.snd).sum

/-- Modelled from the spec: the period loop of `generate_schedule`
(§4.2 steps 1-7), which is not under `src/`.  Arguments after the
configuration: remaining period count, current period number, running
balance.  Each period: add the draw, accrue `interest = balance *
periodic_rate`, pick the principal/payment pair (balloon on the final
interest-only period, clamp an amortizing overshoot to the balance),
update `balance = max(0, balance - principal)`, round every emitted
figure to 2 decimals carrying the rounded balance forward, and stop
the instant the balance reaches 0. -/
def genRows (interest_only : Bool) (payment r : ℚ) (draws : List (ℕ × ℚ))
    (n_periods : ℕ) : ℕ → ℕ → ℚ → List SRow
  | 0, _, _ => []
  | rem + 1, period, balance =>
    let draw_amt := drawAt draws period
    let bal := balance + draw_amt
    let interest := bal * r
    let pp : ℚ × ℚ :=
      if interest_only then
        if period = n_periods then (bal, interest + bal) else (0, interest)
      else
        let principal_payment := payment - interest
        if principal_payment > bal then (bal, interest + bal)
        else (principal_payment, payment)
    let bal2 := round2 (max 0 (bal - pp.1))
    let row : SRow := ⟨period, round2 draw_amt, round2 pp.2, round2 pp.1, round2 interest, bal2⟩
    if bal2 ≤ 0 then [row]
    else row :: genRows interest_only payment r draws n_periods rem (period + 1) bal2

/-- Modelled from the spec: `generate_schedule` (§4.2), not under
`src/`.  The base `payment` is supplied by the caller (computed via
§4.1); periods run 1..`n_periods` starting from the principal. -/
def generate_schedule (interest_only : Bool) (payment r : ℚ)
    (draws : List (ℕ × ℚ)) (n_periods : ℕ) (principal : ℚ) : List SRow :=
  genRows interest_only payment r draws n_periods n_periods 1 principal

/-- The balance update performed by one iteration of the positive-rate
loop of `amortize_schedule`: `balance - (monthly - balance * r)`. -/
def balStep (monthly r b : ℚ) : ℚ := b - (monthly - b * r)

/-- The running balance of the positive-rate loop of
`amortize_schedule` after `k` iterations. -/
def balAfter (monthly r b : ℚ) : ℕ → ℚ
  | 0 => b
  | k + 1 => balStep monthly r (balAfter monthly r b k)

/-- Reciprocal annuity sum `∑_{k=1}^{n} (1+r)^(-k)`: the classical
present-value form used to analyse the annuity payment formula of
`amortize_schedule`. -/
def annuitySum (r : ℚ) (n : ℕ) : ℚ :=
  ∑ k ∈ Finset.range n, ((1 + r) ^ (k + 1))⁻¹

/-- Iterating the loop's balance update commutes with one extra step. -/
lemma balAfter_balStep (m r b : ℚ) (k : ℕ) :
    balAfter m r (balStep m r b) k = balAfter m r b (k + 1) := by
  induction k with
  | zero => rfl
  | succ k ih => simp only [balAfter, ih]

/-- The zero-rate loop is the positive-rate loop instantiated at `r = 0`:
`interest_paid = balance * 0 = 0` and `principal_paid = monthly`. -/
lemma amortRowsZero_eq_pos (m : ℚ) (rem : ℕ) :
    ∀ (i : ℕ) (b : ℚ), amortRowsZero m rem i b = amortRowsPos m 0 rem i b := by
  induction rem with
  | zero => intro i b; rfl
  | succ rem ih =>
    intro i b
    simp only [amortRowsZero, amortRowsPos, mul_zero, sub_zero, ih]

/-- Telescoping: the principal column of the loop sums to the drop in
the running balance. -/
lemma amortRowsPos_sum_principal (m r : ℚ) (rem : ℕ) :
    ∀ (i : ℕ) (b : ℚ),
      ((amortRowsPos m r rem i b).map Row.principal).sum = b - balAfter m r b rem := by
  induction rem with
  | zero => intro i b; simp [amortRowsPos, balAfter]
  | succ rem ih =>
    intro i b
    simp only [amortRowsPos, List.map_cons, List.sum_cons, ih]
    rw [show b - (m - b * r) = balStep m r b from rfl, balAfter_balStep]
    simp only [balStep]
    ring

/-- The interest column of the loop sums to total payments minus the
drop in the running balance. -/
lemma amortRowsPos_sum_interest (m r : ℚ) (rem : ℕ) :
    ∀ (i : ℕ) (b : ℚ),
      ((amortRowsPos m r rem i b).map Row.interest).sum =
        (rem : ℚ) * m - (b - balAfter m r b rem) := by
  induction rem with
  | zero => intro i b; simp [amortRowsPos, balAfter]
  | succ rem ih =>
    intro i b
    simp only [amortRowsPos, List.map_cons, List.sum_cons, ih]
    rw [show b - (m - b * r) = balStep m r b from rfl, balAfter_balStep]
    push_cast
    simp only [balStep]
    ring

/-- The balance stored in the loop's final row is the clamped running
balance after all iterations. -/
lemma amortRowsPos_getLast_balance (m r : ℚ) (rem : ℕ) :
    ∀ (i : ℕ) (b : ℚ),
      ((amortRowsPos m r (rem + 1) i b).map Row.balance).getLast? =
        some (max (balAfter m r b (rem + 1)) 0) := by
  induction rem with
  | zero =>
    intro i b
    rfl
  | succ rem ih =>
    intro i b
    have hstep : amortRowsPos m r (rem + 1 + 1) i b =
        ⟨i, m, m - b * r, b * r, max (b - (m - b * r)) 0⟩ ::
          amortRowsPos m r (rem + 1) (i + 1) (balStep m r b) := rfl
    rw [hstep, List.map_cons, List.getLast?_cons, ih (i + 1) (balStep m r b),
      balAfter_balStep]
    rfl

/-- Closed form of the running balance after `k` steps. -/
lemma balAfter_closed (m r b : ℚ) (k : ℕ) :
    balAfter m r b k = b * (1 + r) ^ k - m * (∑ j ∈ Finset.range k, (1 + r) ^ j) := by
  induction k with
  | zero => simp [balAfter]
  | succ k ih =>
    show balStep m r (balAfter m r b k) = _
    rw [balStep, ih, geom_sum_succ]
    ring

/-- Geometric sum in the form used by the annuity formula. -/
lemma geom_sum_eq_annuity (r : ℚ) (n : ℕ) (hr : r ≠ 0) :
    (∑ j ∈ Finset.range n, (1 + r) ^ j) = ((1 + r) ^ n - 1) / r := by
  have h := geom_sum_mul (1 + r) n
  rw [add_sub_cancel_left] at h
  field_simp
  linarith [h]

/-- With the annuity payment of `amortize_schedule`, the running balance
is exactly 0 after `n` periods. -/
lemma balAfter_annuity_zero (P r : ℚ) (n : ℕ) (hr : 0 < r) (hn : n ≠ 0) :
    balAfter (P * (r * (1 + r) ^ n) / ((1 + r) ^ n - 1)) r P n = 0 := by
  have hfac : (1 : ℚ) < (1 + r) ^ n := one_lt_pow₀ (by linarith) hn
  have hfac0 : (1 + r) ^ n - 1 ≠ 0 := sub_ne_zero.mpr (ne_of_gt hfac)
  rw [balAfter_closed, geom_sum_eq_annuity r n (ne_of_gt hr)]
  field_simp
  ring

/-- With the straight-line payment `P / m`, the running balance is
exactly 0 after `m` periods. -/
lemma balAfter_zero_rate (P : ℚ) (m : ℕ) (hm : (m : ℚ) ≠ 0) :
    balAfter (P / (m : ℚ)) 0 P m = 0 := by
  rw [balAfter_closed]
  simp only [add_zero, one_pow, Finset.sum_const, Finset.card_range, nsmul_eq_mul, mul_one]
  field_simp

lemma annuitySum_zero_rate (n : ℕ) : annuitySum 0 n = (n : ℚ) := by
  simp [annuitySum]

lemma annuitySum_pos (r : ℚ) (n : ℕ) (hr : 0 ≤ r) (hn : n ≠ 0) : 0 < annuitySum r n := by
  apply Finset.sum_pos
  · intro k _
    have h1 : (0 : ℚ) < (1 + r) ^ (k + 1) := pow_pos (by linarith) _
    positivity
  · exact Finset.nonempty_range_iff.mpr hn

/-- The reciprocal annuity sum strictly decreases in the periodic rate. -/
lemma annuitySum_strict_anti (r1 r2 : ℚ) (n : ℕ) (h0 : 0 ≤ r1) (h : r1 < r2) (hn : n ≠ 0) :
    annuitySum r2 n < annuitySum r1 n := by
  apply Finset.sum_lt_sum_of_nonempty (Finset.nonempty_range_iff.mpr hn)
  intro k _
  have h1 : (0 : ℚ) < (1 + r1) ^ (k + 1) := pow_pos (by linarith) _
  have h2 : (1 + r1) ^ (k + 1) < (1 + r2) ^ (k + 1) :=
    pow_lt_pow_left₀ (by linarith) (by linarith) (Nat.succ_ne_zero k)
  exact inv_strictAnti₀ h1 h2

/-- The annuity payment formula of `amortize_schedule` equals principal
divided by the reciprocal annuity sum. -/
lemma annuity_formula_eq (P r : ℚ) (n : ℕ) (hr : 0 < r) (hn : n ≠ 0) :
    P * (r * (1 + r) ^ n) / ((1 + r) ^ n - 1) = P / annuitySum r n := by
  have h1r : (0 : ℚ) < 1 + r := by linarith
  have hx : (1 + r) ≠ 0 := ne_of_gt h1r
  have hfac : (1 : ℚ) < (1 + r) ^ n := one_lt_pow₀ (by linarith) hn
  have hfacpos : (0 : ℚ) < (1 + r) ^ n := pow_pos h1r n
  have hfac0 : (1 + r) ^ n - 1 ≠ 0 := sub_ne_zero.mpr (ne_of_gt hfac)
  have hkey : annuitySum r n * (r * (1 + r) ^ n) = (1 + r) ^ n - 1 := by
    rw [annuitySum, Finset.sum_mul]
    have hterm : ∀ k ∈ Finset.range n,
        ((1 + r) ^ (k + 1))⁻¹ * (r * (1 + r) ^ n) = r * (1 + r) ^ (n - 1 - k) := by
      intro k hk
      have hkn : k + 1 ≤ n := Nat.succ_le_of_lt (Finset.mem_range.mp hk)
      have hsub : (1 + r) ^ (n - (k + 1)) = (1 + r) ^ n / (1 + r) ^ (k + 1) :=
        pow_sub₀ (1 + r) hx hkn
      have hnk : n - 1 - k = n - (k + 1) := by omega
      rw [hnk, hsub]
      field_simp
    rw [Finset.sum_congr rfl hterm, ← Finset.mul_sum, Finset.sum_range_reflect]
    rw [geom_sum_eq_annuity r n (ne_of_gt hr)]
    field_simp
  have hS : annuitySum r n = ((1 + r) ^ n - 1) / (r * (1 + r) ^ n) := by
    rw [← hkey]
    field_simp
  rw [hS, div_div_eq_mul_div, div_eq_div_iff hfac0 (by positivity)]

/-- The guard branch of `amortize_schedule` (source lines 16-18). -/
lemma amortize_schedule_guard (P apr years : ℚ) (h : pyInt (years * 12) ≤ 0 ∨ P ≤ 0) :
    amortize_schedule P apr years = ⟨0, 0, 0, []⟩ := by
  unfold amortize_schedule
  rw [if_pos h]

/-- The `apr == 0` branch of `amortize_schedule` (source lines 19-32). -/
lemma amortize_schedule_zero_eq (P years : ℚ) (hn : 0 < pyInt (years * 12)) (hP : 0 < P) :
    amortize_schedule P 0 years =
      ⟨P / ((pyInt (years * 12)).toNat : ℚ),
        P / ((pyInt (years * 12)).toNat : ℚ) * ((pyInt (years * 12)).toNat : ℚ),
        P / ((pyInt (years * 12)).toNat : ℚ) * ((pyInt (years * 12)).toNat : ℚ) - P,
        amortRowsZero (P / ((pyInt (years * 12)).toNat : ℚ)) (pyInt (years * 12)).toNat 1 P⟩ := by
  unfold amortize_schedule
  rw [if_neg (by push_neg; exact ⟨hn, hP⟩), if_pos rfl]

/-- The positive-rate branch of `amortize_schedule` (source lines 33-47). -/
lemma amortize_schedule_pos_eq (P apr years : ℚ) (hn : 0 < pyInt (years * 12)) (hP : 0 < P)
    (ha : apr ≠ 0) :
    amortize_schedule P apr years =
      ⟨P * (apr / 12 * (1 + apr / 12) ^ (pyInt (years * 12)).toNat) /
          ((1 + apr / 12) ^ (pyInt (years * 12)).toNat - 1),
        P * (apr / 12 * (1 + apr / 12) ^ (pyInt (years * 12)).toNat) /
            ((1 + apr / 12) ^ (pyInt (years * 12)).toNat - 1) * ((pyInt (years * 12)).toNat : ℚ),
        P * (apr / 12 * (1 + apr / 12) ^ (pyInt (years * 12)).toNat) /
            ((1 + apr / 12) ^ (pyInt (years * 12)).toNat - 1) * ((pyInt (years * 12)).toNat : ℚ) - P,
        amortRowsPos
          (P * (apr / 12 * (1 + apr / 12) ^ (pyInt (years * 12)).toNat) /
            ((1 + apr / 12) ^ (pyInt (years * 12)).toNat - 1))
          (apr / 12) (pyInt (years * 12)).toNat 1 P⟩ := by
  unfold amortize_schedule
  rw [if_neg (by push_neg; exact ⟨hn, hP⟩), if_neg ha]

lemma toNat_ne_zero_of_pos (n : ℤ) (hn : 0 < n) : n.toNat ≠ 0 := by
  omega

lemma toNat_cast_ne_zero (n : ℤ) (hn : 0 < n) : ((n.toNat : ℕ) : ℚ) ≠ 0 := by
  have h : n.toNat ≠ 0 := by omega
  exact_mod_cast h

/-- Every row the positive-rate loop emits has the constant payment. -/
lemma amortRowsPos_payment_mem (m r : ℚ) (rem : ℕ) :
    ∀ (i : ℕ) (b : ℚ) (row : Row), row ∈ amortRowsPos m r rem i b → row.payment = m := by
  induction rem with
  | zero => intro i b row h; simp [amortRowsPos] at h
  | succ rem ih =>
    intro i b row h
    simp only [amortRowsPos, List.mem_cons] at h
    rcases h with h | h
    · rw [h]
    · exact ih _ _ _ h

/-- In every row the loop emits, principal plus interest is exactly the
payment (a full-precision identity, with no per-period rounding). -/
lemma amortRowsPos_payment_split (m r : ℚ) (rem : ℕ) :
    ∀ (i : ℕ) (b : ℚ) (row : Row), row ∈ amortRowsPos m r rem i b →
      row.principal + row.interest = row.payment := by
  induction rem with
  | zero => intro i b row h; simp [amortRowsPos] at h
  | succ rem ih =>
    intro i b row h
    simp only [amortRowsPos, List.mem_cons] at h
    rcases h with h | h
    · rw [h]; ring
    · exact ih _ _ _ h

lemma monthly_formula (P apr years : ℚ) (hP : 0 < P) (hr : 0 ≤ apr)
    (hn : 0 < pyInt (years * 12)) :
    (amortize_schedule P apr years).monthly =
      P / annuitySum (apr / 12) (pyInt (years * 12)).toNat := by
  by_cases ha : apr = 0
  · subst ha
    rw [amortize_schedule_zero_eq P years hn hP]
    simp only
    rw [show (0 : ℚ) / 12 = 0 by norm_num, annuitySum_zero_rate]
  · have hapos : 0 < apr := lt_of_le_of_ne hr (Ne.symm ha)
    rw [amortize_schedule_pos_eq P apr years hn hP ha]
    simp only
    exact annuity_formula_eq P (apr / 12) _ (by positivity) (toNat_ne_zero_of_pos _ hn)

/-- C3: for principal > 0, rate ≥ 0 (in particular any rate in [0,100)),
and a positive period count, the monthly payment of `amortize_schedule`
is strictly positive, strictly increases in the rate (principal and term
fixed), and strictly increases in the principal (rate and term fixed). -/
theorem payment_positive_and_monotone (P P2 apr apr2 years : ℚ) (hP : 0 < P)
    (hr : 0 ≤ apr) (hn : 0 < pyInt (years * 12)) (hPP : P < P2) (hra : apr < apr2) :
    0 < (amortize_schedule P apr years).monthly ∧
    (amortize_schedule P apr years).monthly < (amortize_schedule P apr2 years).monthly ∧
    (amortize_schedule P apr years).monthly < (amortize_schedule P2 apr years).monthly := by
  have hm := toNat_ne_zero_of_pos _ hn
  have hr2 : 0 ≤ apr2 := le_of_lt (lt_of_le_of_lt hr hra)
  have hP2 : 0 < P2 := lt_trans hP hPP
  have hS1 : 0 < annuitySum (apr / 12) (pyInt (years * 12)).toNat :=
    annuitySum_pos _ _ (by positivity) hm
  have hS2 : 0 < annuitySum (apr2 / 12) (pyInt (years * 12)).toNat :=
    annuitySum_pos _ _ (by positivity) hm
  rw [monthly_formula P apr years hP hr hn, monthly_formula P apr2 years hP hr2 hn,
    monthly_formula P2 apr years hP2 hr hn]
  refine ⟨div_pos hP hS1, ?_, ?_⟩
  · have hanti := annuitySum_strict_anti (apr / 12) (apr2 / 12) (pyInt (years * 12)).toNat
      (by positivity) (by linarith) hm
    exact div_lt_div_of_pos_left hP hS2 hanti
  · gcongr

/-- C6: the strict entry point `compute_payment` (modelled from the
spec) returns `InvalidInput` — rather than a value — whenever
principal ≤ 0, the annual rate is outside [0,100), or the term is ≤ 0,
at validation time before any computation. -/
theorem compute_payment_invalid (P rate T : ℚ)
    (h : P ≤ 0 ∨ rate < 0 ∨ 100 ≤ rate ∨ T ≤ 0) :
    compute_payment P rate T = Except.error CalcError.InvalidInput := by
  unfold compute_payment
  rw [if_pos h]

/-- C9: the loan-to-value computation never divides by zero: for all
inputs, `LTV = (borrowed + existing)/home_value` when the home value is
nonzero, and `LTV = 0` when it is zero. -/
theorem LTV_division_guard (borrowed existing_loan home_value : ℚ) :
    (home_value ≠ 0 →
      LTV borrowed existing_loan home_value = (borrowed + existing_loan) / home_value) ∧
    (home_value = 0 → LTV borrowed existing_loan home_value = 0) := by
  constructor <;> intro h <;> simp [LTV, h]

lemma round2_zero : round2 0 = 0 := by
  norm_num [round2]

lemma genRows_io_cons (pay r P : ℚ) (n rem period : ℕ) (hne : period ≠ n)
    (hP : 0 < P) (h2 : round2 P = P) :
    genRows true pay r [] n (rem + 1) period P =
      ⟨period, 0, round2 (P * r), 0, round2 (P * r), P⟩ ::
        genRows true pay r [] n rem (period + 1) P := by
  simp only [genRows, drawAt, List.filter_nil, List.map_nil, List.sum_nil, add_zero,
    if_neg hne, if_true, sub_zero, round2_zero]
  rw [max_eq_right (le_of_lt hP), h2, if_neg (not_le.mpr hP)]

lemma genRows_io_last (pay r P : ℚ) (n : ℕ) (h2 : round2 P = P) :
    genRows true pay r [] n 1 n P =
      [⟨n, 0, round2 (P * r + P), P, round2 (P * r), 0⟩] := by
  simp only [genRows, drawAt, List.filter_nil, List.map_nil, List.sum_nil, add_zero,
    if_pos rfl, if_true, sub_self, max_self, round2_zero, h2]
  simp

lemma genRows_io (pay r P : ℚ) (n : ℕ) (hP : 0 < P) (h2 : round2 P = P) :
    ∀ (rem period : ℕ), period + rem = n + 1 → 1 ≤ rem →
      genRows true pay r [] n rem period P =
        (List.range (rem - 1)).map
          (fun j => ⟨period + j, 0, round2 (P * r), 0, round2 (P * r), P⟩) ++
          [⟨n, 0, round2 (P * r + P), P, round2 (P * r), 0⟩] := by
  intro rem
  induction rem with
  | zero => intro period h h1; omega
  | succ rem ih =>
    intro period h h1
    match rem, ih with
    | 0, _ =>
      have hpn : period = n := by omega
      subst hpn
      rw [genRows_io_last pay r P period h2]
      simp
    | rem + 1, ih =>
      have hne : period ≠ n := by omega
      rw [genRows_io_cons pay r P n (rem + 1) period hne hP h2,
        ih (period + 1) (by omega) (by omega)]
      simp only [Nat.add_sub_cancel]
      rw [List.range_succ_eq_map, List.map_cons, List.map_map, List.cons_append]
      congr 1
      congr 1
      apply List.map_congr_left
      intro a ha
      simp only [Function.comp_apply]
      congr 1
      omega

/-- C1: for principal > 0, rate ≥ 0 (in particular any rate in
[0,100)), and `n = int(years*12) > 0` periods (no draws exist in
`amortize_schedule`), the principal column of the schedule sums to the
input principal — exactly, in the exact-arithmetic embedding, hence
within any `n * 0.01` tolerance — and the final period's balance is 0. -/
theorem amortize_sum_law (P apr years : ℚ) (hP : 0 < P) (hr : 0 ≤ apr)
    (hn : 0 < pyInt (years * 12)) :
    (((amortize_schedule P apr years).schedule.map Row.principal).sum = P) ∧
    (((amortize_schedule P apr years).schedule.map Row.balance).getLast? = some 0) := by
  have hm : (pyInt (years * 12)).toNat ≠ 0 := toNat_ne_zero_of_pos _ hn
  have hmQ : (((pyInt (years * 12)).toNat : ℕ) : ℚ) ≠ 0 := toNat_cast_ne_zero _ hn
  rcases eq_or_lt_of_le hr with h0 | hpos
  · rw [← h0, amortize_schedule_zero_eq P years hn hP]
    simp only
    rw [amortRowsZero_eq_pos]
    have hz := balAfter_zero_rate P (pyInt (years * 12)).toNat hmQ
    obtain ⟨k, hk⟩ := Nat.exists_eq_succ_of_ne_zero hm
    constructor
    · rw [amortRowsPos_sum_principal, hz]; ring
    · rw [hk] at hz ⊢
      rw [amortRowsPos_getLast_balance, hz]
      simp
  · rw [amortize_schedule_pos_eq P apr years hn hP (ne_of_gt hpos)]
    simp only
    have hr12 : 0 < apr / 12 := by positivity
    have hz := balAfter_annuity_zero P (apr / 12) (pyInt (years * 12)).toNat hr12 hm
    obtain ⟨k, hk⟩ := Nat.exists_eq_succ_of_ne_zero hm
    constructor
    · rw [amortRowsPos_sum_principal, hz]; ring
    · rw [hk] at hz ⊢
      rw [amortRowsPos_getLast_balance, hz]
      simp

/-- C2: with annual rate 0, principal > 0 and `n = int(years*12) > 0`,
`amortize_schedule` returns a monthly payment of exactly `P / n` and a
total interest of exactly 0. -/
theorem zero_rate_payment (P years : ℚ) (hP : 0 < P) (hn : 0 < pyInt (years * 12)) :
    (amortize_schedule P 0 years).monthly = P / (((pyInt (years * 12)).toNat : ℕ) : ℚ) ∧
    (amortize_schedule P 0 years).total_interest = 0 := by
  rw [amortize_schedule_zero_eq P years hn hP]
  refine ⟨rfl, ?_⟩
  have hmQ := toNat_cast_ne_zero _ hn
  simp only
  field_simp

/-- C4: for every valid input the `total_interest` value returned by
`amortize_schedule` (computed in the code as `monthly*n - principal`)
equals the sum of the interest column of the schedule it returns. -/
theorem total_interest_eq_interest_sum (P apr years : ℚ) (hP : 0 < P) (hr : 0 ≤ apr)
    (hn : 0 < pyInt (years * 12)) :
    (amortize_schedule P apr years).total_interest =
      ((amortize_schedule P apr years).schedule.map Row.interest).sum := by
  have hm : (pyInt (years * 12)).toNat ≠ 0 := toNat_ne_zero_of_pos _ hn
  have hmQ : (((pyInt (years * 12)).toNat : ℕ) : ℚ) ≠ 0 := toNat_cast_ne_zero _ hn
  rcases eq_or_lt_of_le hr with h0 | hpos
  · rw [← h0, amortize_schedule_zero_eq P years hn hP]
    simp only
    rw [amortRowsZero_eq_pos, amortRowsPos_sum_interest,
      balAfter_zero_rate P (pyInt (years * 12)).toNat hmQ]
    ring
  · rw [amortize_schedule_pos_eq P apr years hn hP (ne_of_gt hpos)]
    simp only
    have hr12 : 0 < apr / 12 := by positivity
    rw [amortRowsPos_sum_interest,
      balAfter_annuity_zero P (apr / 12) (pyInt (years * 12)).toNat hr12 hm]
    ring

/-- C7: when the period count resolves to 0 or the principal is ≤ 0,
`amortize_schedule` does not raise: it returns monthly payment 0.0,
total paid 0.0, total interest 0.0 and an empty schedule. -/
theorem empty_result_on_degenerate (P apr years : ℚ)
    (h : pyInt (years * 12) = 0 ∨ P ≤ 0) :
    amortize_schedule P apr years = ⟨0, 0, 0, []⟩ :=
  amortize_schedule_guard P apr years (h.imp le_of_eq id)

/-- C10: in every schedule produced by `amortize_schedule` (both the
zero-rate and the positive-rate branch), the payment field of every
emitted row equals the single monthly payment value the function
returns, including in the final period. -/
theorem payment_column_constant (P apr years : ℚ) (row : Row)
    (h : row ∈ (amortize_schedule P apr years).schedule) :
    row.payment = (amortize_schedule P apr years).monthly := by
  by_cases hg : pyInt (years * 12) ≤ 0 ∨ P ≤ 0
  · rw [amortize_schedule_guard P apr years hg] at h
    simp at h
  · push_neg at hg
    obtain ⟨hn, hP⟩ := hg
    by_cases ha : apr = 0
    · subst ha
      rw [amortize_schedule_zero_eq P years hn hP] at h ⊢
      rw [amortRowsZero_eq_pos] at h
      exact amortRowsPos_payment_mem _ _ _ _ _ _ h
    · rw [amortize_schedule_pos_eq P apr years hn hP ha] at h ⊢
      exact amortRowsPos_payment_mem _ _ _ _ _ _ h

/-- C5 (amended): `amortize_schedule` emits rows in full precision —
no per-period rounding to 2 decimals is applied (2-decimal rounding
happens only in display formatting outside the function).  In every
emitted row the exact identity `principal + interest = payment` holds,
which independent per-period rounding of the three columns would
break. -/
theorem schedule_rows_full_precision (P apr years : ℚ) (row : Row)
    (h : row ∈ (amortize_schedule P apr years).schedule) :
    row.principal + row.interest = row.payment := by
  by_cases hg : pyInt (years * 12) ≤ 0 ∨ P ≤ 0
  · rw [amortize_schedule_guard P apr years hg] at h
    simp at h
  · push_neg at hg
    obtain ⟨hn, hP⟩ := hg
    by_cases ha : apr = 0
    · subst ha
      rw [amortize_schedule_zero_eq P years hn hP] at h
      rw [amortRowsZero_eq_pos] at h
      exact amortRowsPos_payment_split _ _ _ _ _ _ h
    · rw [amortize_schedule_pos_eq P apr years hn hP ha] at h
      exact amortRowsPos_payment_split _ _ _ _ _ _ h

/-- C5 (counterexample): the claim that every emitted schedule value
is rounded to 2 decimal places fails on the code: for principal 10000,
rate 0, 1 year, the payment stored in the first row is `2500/3 =
833.333...`, which is not a 2-decimal value (`round2` changes it). -/
theorem rounding_counterexample :
    ((amortize_schedule 10000 0 1).schedule.map Row.payment).head? = some (2500 / 3) ∧
    round2 (2500 / 3) ≠ (2500 / 3 : ℚ) := by
  constructor
  · norm_num [amortize_schedule, pyInt, Int.toNat, amortRowsZero]
  · norm_num [round2, round_eq]

/-- C8: in the spec-modelled interest-only `generate_schedule` (no
draws, principal expressible at 2 decimals), every period except the
last has principal 0 and payment equal to that period's interest (and
carries the full balance), and the last period's principal equals the
balance outstanding before it (the balloon payoff of the whole
principal). -/
theorem interest_only_law (pay r P : ℚ) (n : ℕ) (hP : 0 < P) (h2 : round2 P = P)
    (hn : 1 ≤ n) :
    (generate_schedule true pay r [] n P).length = n ∧
    (∀ row ∈ (generate_schedule true pay r [] n P).dropLast,
      row.principal = 0 ∧ row.payment = row.interest ∧ row.balance = P) ∧
    (generate_schedule true pay r [] n P).getLast?.map SRow.principal = some P := by
  have hc := genRows_io pay r P n hP h2 n 1 (by omega) hn
  unfold generate_schedule
  rw [hc]
  refine ⟨?_, ?_, ?_⟩
  · simp only [List.length_append, List.length_map, List.length_range, List.length_singleton]
    omega
  · rw [List.dropLast_concat]
    intro row hrow
    obtain ⟨j, hj, rfl⟩ := List.mem_map.1 hrow
    exact ⟨rfl, rfl, rfl⟩
  · rw [List.getLast?_concat]
    rfl

theorem amortize_sum_law_witness :
    (0 : ℚ) < 100 ∧ (0 : ℚ) ≤ 1 / 5 ∧ 0 < pyInt ((1 / 12 : ℚ) * 12) ∧
    ((((amortize_schedule 100 (1 / 5) (1 / 12)).schedule.map Row.principal).sum = 100) ∧
      (((amortize_schedule 100 (1 / 5) (1 / 12)).schedule.map Row.balance).getLast? = some 0)) :=
  ⟨by norm_num, by norm_num, by norm_num [pyInt],
    amortize_sum_law 100 (1 / 5) (1 / 12) (by norm_num) (by norm_num) (by norm_num [pyInt])⟩

theorem zero_rate_payment_witness :
    (0 : ℚ) < 10000 ∧ 0 < pyInt ((2 : ℚ) * 12) ∧
    ((amortize_schedule 10000 0 2).monthly = 10000 / (((pyInt ((2 : ℚ) * 12)).toNat : ℕ) : ℚ) ∧
      (amortize_schedule 10000 0 2).total_interest = 0) :=
  ⟨by norm_num, by norm_num [pyInt],
    zero_rate_payment 10000 2 (by norm_num) (by norm_num [pyInt])⟩

theorem payment_positive_and_monotone_witness :
    (0 : ℚ) < 100 ∧ (0 : ℚ) ≤ 0 ∧ 0 < pyInt ((1 / 12 : ℚ) * 12) ∧ (100 : ℚ) < 200 ∧
      (0 : ℚ) < 1 / 10 ∧
    (0 < (amortize_schedule 100 0 (1 / 12)).monthly ∧
      (amortize_schedule 100 0 (1 / 12)).monthly <
        (amortize_schedule 100 (1 / 10) (1 / 12)).monthly ∧
      (amortize_schedule 100 0 (1 / 12)).monthly <
        (amortize_schedule 200 0 (1 / 12)).monthly) :=
  ⟨by norm_num, le_refl 0, by norm_num [pyInt], by norm_num, by norm_num,
    payment_positive_and_monotone 100 200 0 (1 / 10) (1 / 12) (by norm_num) (le_refl 0)
      (by norm_num [pyInt]) (by norm_num) (by norm_num)⟩

theorem total_interest_eq_interest_sum_witness :
    (0 : ℚ) < 100 ∧ (0 : ℚ) ≤ 1 / 5 ∧ 0 < pyInt ((1 / 12 : ℚ) * 12) ∧
    (amortize_schedule 100 (1 / 5) (1 / 12)).total_interest =
      ((amortize_schedule 100 (1 / 5) (1 / 12)).schedule.map Row.interest).sum :=
  ⟨by norm_num, by norm_num, by norm_num [pyInt],
    total_interest_eq_interest_sum 100 (1 / 5) (1 / 12) (by norm_num) (by norm_num)
      (by norm_num [pyInt])⟩

theorem empty_result_on_degenerate_witness :
    (pyInt ((0 : ℚ) * 12) = 0 ∨ (100 : ℚ) ≤ 0) ∧
    amortize_schedule 100 (1 / 10) 0 = ⟨0, 0, 0, []⟩ :=
  ⟨Or.inl (by norm_num [pyInt]),
    empty_result_on_degenerate 100 (1 / 10) 0 (Or.inl (by norm_num [pyInt]))⟩

theorem compute_payment_invalid_witness :
    ((-1 : ℚ) ≤ 0 ∨ (17 / 2 : ℚ) < 0 ∨ (100 : ℚ) ≤ 17 / 2 ∨ (10 : ℚ) ≤ 0) ∧
    compute_payment (-1) (17 / 2) 10 = Except.error CalcError.InvalidInput :=
  ⟨Or.inl (by norm_num),
    compute_payment_invalid (-1) (17 / 2) 10 (Or.inl (by norm_num))⟩

theorem interest_only_law_witness :
    (0 : ℚ) < 50000 ∧ round2 50000 = (50000 : ℚ) ∧ 1 ≤ 2 ∧
    ((generate_schedule true 0 (1 / 240) [] 2 50000).length = 2 ∧
      (∀ row ∈ (generate_schedule true 0 (1 / 240) [] 2 50000).dropLast,
        row.principal = 0 ∧ row.payment = row.interest ∧ row.balance = 50000) ∧
      (generate_schedule true 0 (1 / 240) [] 2 50000).getLast?.map SRow.principal =
        some 50000) :=
  ⟨by norm_num, by norm_num [round2, round_eq], by norm_num,
    interest_only_law 0 (1 / 240) 50000 2 (by norm_num) (by norm_num [round2, round_eq])
      (by norm_num)⟩

theorem LTV_division_guard_witness :
    ((400000 : ℚ) ≠ 0 → LTV 50000 200000 400000 = (50000 + 200000) / 400000) ∧
    ((0 : ℚ) = 0 → LTV 1 2 0 = 0) :=
  ⟨(LTV_division_guard 50000 200000 400000).1, (LTV_division_guard 1 2 0).2⟩

theorem schedule_rows_full_precision_witness :
    (⟨1, 305 / 3, 100, 5 / 3, 0⟩ : Row) ∈ (amortize_schedule 100 (1 / 5) (1 / 12)).schedule ∧
    (⟨1, 305 / 3, 100, 5 / 3, 0⟩ : Row).principal + (⟨1, 305 / 3, 100, 5 / 3, 0⟩ : Row).interest =
      (⟨1, 305 / 3, 100, 5 / 3, 0⟩ : Row).payment :=
  ⟨by norm_num [amortize_schedule, pyInt, Int.toNat, amortRowsPos],
    schedule_rows_full_precision 100 (1 / 5) (1 / 12) ⟨1, 305 / 3, 100, 5 / 3, 0⟩
      (by norm_num [amortize_schedule, pyInt, Int.toNat, amortRowsPos])⟩

theorem payment_column_constant_witness :
    (⟨1, 100, 100, 0, 1100⟩ : Row) ∈ (amortize_schedule 1200 0 1).schedule ∧
    (⟨1, 100, 100, 0, 1100⟩ : Row).payment = (amortize_schedule 1200 0 1).monthly :=
  ⟨by norm_num [amortize_schedule, pyInt, Int.toNat, amortRowsZero],
    payment_column_constant 1200 0 1 ⟨1, 100, 100, 0, 1100⟩
      (by norm_num [amortize_schedule, pyInt, Int.toNat, amortRowsZero])⟩

end Heloc
